import Mathlib

/-!
Verification of the 24-hour clock stepper-motor firmware (`src/main.c`).

The program has two components:

* a timer-overflow interrupt handler `ISR(TIMER0_OVF_vect)` that adds a
  fixed tick period (`MICROSECONDS_PER_INTERRUPT`) to a private `uint64_t`
  accumulator `unaccounted_microseconds` and, once the accumulator reaches
  `MICROSECONDS_PER_PULSE`, subtracts that target interval once and sets the
  shared flag `send_pulse`;
* a `main` function that performs a fixed startup sequence of 180 motor
  cycles, then loops forever: when `send_pulse` is set it clears the flag,
  writes the six `stateMap` phase codes to `PORTB` (each held for
  `PULSE_LENGTH` microseconds) and finally writes the all-off code `0`,
  then sleeps until the next interrupt.

The interrupt handler is embedded as a function on an explicit state record,
with the tick period and the target interval as parameters (the tick period
is a build-time constant `(1024*256/F_CPU)*1000000` whose value depends on
the clock configuration; the target interval is fixed at 480 000 000 µs).
`uint64_t` arithmetic is modelled on `Nat` with an explicit `% 2^64` on the
addition; the subtraction is guarded by the branch condition, so it never
underflows.  The main loop is embedded as a trace of port-write / delay /
flag-clear / sleep events.
-/

/-- Modulus of C `uint64_t` arithmetic. -/
def UINT64_MOD : Nat := 2 ^ 64

/-- `#define PULSE_LENGTH 3000`: hold time for each phase code, in µs. -/
def PULSE_LENGTH : Nat := 3000

/-- `#define MICROSECONDS_PER_PULSE (6*80L*1000L*1000L)`: target interval
between pulse requests, 480 000 000 µs. -/
def MICROSECONDS_PER_PULSE : Nat := 6 * 80 * 1000 * 1000

/-- `static const uint8_t pin_mask = _BV(PB0) | _BV(PB1) | _BV(PB2)`. -/
def pin_mask : Nat := 1 <<< 0 ||| 1 <<< 1 ||| 1 <<< 2

/-- `static uint8_t stateMap[] = {0x5, 0x1, 0x3, 0x2, 0x6, 0x4}`. -/
def stateMap : List Nat := [0x5, 0x1, 0x3, 0x2, 0x6, 0x4]

/-- The interrupt-context state: the `static uint64_t unaccounted_microseconds`
accumulator (a value `< 2^64`) and the shared `uint8_t send_pulse` flag.
Both are zero-initialized C statics. -/
structure IsrState where
  unaccounted_microseconds : Nat
  send_pulse : Nat
deriving DecidableEq

/-- One invocation of `ISR(TIMER0_OVF_vect)`, with the tick period `tick`
(= `MICROSECONDS_PER_INTERRUPT`) and the target interval `T`
(= `MICROSECONDS_PER_PULSE`) as parameters:

    unaccounted_microseconds += MICROSECONDS_PER_INTERRUPT;
    if (unaccounted_microseconds < MICROSECONDS_PER_PULSE) return;
    unaccounted_microseconds -= MICROSECONDS_PER_PULSE;
    send_pulse = 1;

The addition wraps at `2^64`; the subtraction happens only when the branch
condition guarantees `u ≥ T`, so plain `Nat` subtraction is exact there. -/
def isrStep (tick T : Nat) (s : IsrState) : IsrState :=
  let u := (s.unaccounted_microseconds + tick) % UINT64_MOD
  if u < T then
    { s with unaccounted_microseconds := u }
  else
    { unaccounted_microseconds := u - T, send_pulse := 1 }

/-- State after `n` interrupt invocations, starting from the
zero-initialized statics. -/
def isrRun (tick T : Nat) : Nat → IsrState
  | 0 => ⟨0, 0⟩
  | n + 1 => isrStep tick T (isrRun tick T n)

/-- Whether the next interrupt invocation from state `s` reaches the
`send_pulse = 1` line (the branch condition `u < T` fails). -/
def isrFires (tick T : Nat) (s : IsrState) : Bool :=
  decide (T ≤ (s.unaccounted_microseconds + tick) % UINT64_MOD)

/-- Number of `send_pulse = 1` executions during the first `n` interrupt
invocations. -/
def pulseSettings (tick T : Nat) : Nat → Nat
  | 0 => 0
  | n + 1 => pulseSettings tick T n + (if isrFires tick T (isrRun tick T n) then 1 else 0)

/-- Joint characterization of the accumulator and the pulse count: under
`tick ≤ T`, `0 < T` and no-wrap room `2*T ≤ 2^64`, after `n` interrupts the
accumulator is `(n*tick) % T` and the flag has been set `(n*tick) / T`
times. -/
theorem isr_characterization (tick T : Nat) (h1 : tick ≤ T) (h2 : 0 < T)
    (h3 : 2 * T ≤ UINT64_MOD) (n : Nat) :
    (isrRun tick T n).unaccounted_microseconds = (n * tick) % T ∧
      pulseSettings tick T n = (n * tick) / T := by
  induction n with
  | zero => simp [isrRun, pulseSettings]
  | succ n ih =>
    obtain ⟨hacc, hcnt⟩ := ih
    have hr : (n * tick) % T < T := Nat.mod_lt _ h2
    have hsmall : (n * tick) % T + tick < UINT64_MOD := by omega
    have hmodid : ((isrRun tick T n).unaccounted_microseconds + tick) % UINT64_MOD
        = (n * tick) % T + tick := by
      rw [hacc]; exact Nat.mod_eq_of_lt hsmall
    have hsplit : (n + 1) * tick = (n * tick) % T + tick + T * (n * tick / T) := by
      have := Nat.div_add_mod (n * tick) T
      ring_nf
      omega
    by_cases hc : (n * tick) % T + tick < T
    · have hmod : ((n + 1) * tick) % T = (n * tick) % T + tick := by
        rw [hsplit, Nat.add_mul_mod_self_left, Nat.mod_eq_of_lt hc]
      have hdiv : ((n + 1) * tick) / T = (n * tick) / T := by
        rw [hsplit, Nat.add_mul_div_left _ _ h2, Nat.div_eq_of_lt hc]
        omega
      have hfire : isrFires tick T (isrRun tick T n) = false := by
        simp [isrFires, hmodid]; omega
      refine ⟨?_, ?_⟩
      · show (isrStep tick T (isrRun tick T n)).unaccounted_microseconds = _
        rw [isrStep]
        simp only [hmodid]
        rw [if_pos hc, hmod]
      · show pulseSettings tick T n + _ = _
        rw [hfire, hcnt, hdiv]
        simp
    · have hge : T ≤ (n * tick) % T + tick := by omega
      have hmod : ((n + 1) * tick) % T = (n * tick) % T + tick - T := by
        rw [hsplit, Nat.add_mul_mod_self_left, Nat.mod_eq_sub_mod hge,
          Nat.mod_eq_of_lt (by omega)]
      have hdiv : ((n + 1) * tick) / T = (n * tick) / T + 1 := by
        rw [hsplit, Nat.add_mul_div_left _ _ h2]
        have hx : (n * tick) % T + tick = ((n * tick) % T + tick - T) + T := by omega
        rw [hx, Nat.add_div_right _ h2, Nat.div_eq_of_lt (by omega)]
        omega
      have hfire : isrFires tick T (isrRun tick T n) = true := by
        simp [isrFires, hmodid]; omega
      refine ⟨?_, ?_⟩
      · show (isrStep tick T (isrRun tick T n)).unaccounted_microseconds = _
        rw [isrStep]
        simp only [hmodid]
        rw [if_neg (by omega), hmod]
      · show pulseSettings tick T n + _ = _
        rw [hfire, hcnt, hdiv]
        simp

/-- The accumulator invariant, as a standalone consequence: after every
number of interrupts, the accumulator is below the target interval. -/
theorem isr_acc_lt (tick T : Nat) (h1 : tick ≤ T) (h2 : 0 < T)
    (h3 : 2 * T ≤ UINT64_MOD) (n : Nat) :
    (isrRun tick T n).unaccounted_microseconds < T := by
  have h := (isr_characterization tick T h1 h2 h3 n).1
  rw [h]
  exact Nat.mod_lt _ h2

/-- Events observable from the main (non-interrupt) context:
a `PORTB = v` write, a `_delay_us(t)` hold, the `send_pulse = 0` clear,
and a `sleep_mode()` call. -/
inductive Event where
  | portWrite (v : Nat) : Event
  | delayUs (t : Nat) : Event
  | clearFlag : Event
  | sleepMode : Event
deriving DecidableEq

/-- One motor cycle as written twice in `main`:
`for (i=0; i<6; i++) { PORTB = stateMap[i]; _delay_us(PULSE_LENGTH); }`
followed by `PORTB = 0`. -/
def pulseCycle : List Event :=
  (stateMap.flatMap fun v => [Event.portWrite v, Event.delayUs PULSE_LENGTH])
    ++ [Event.portWrite 0]

/-- The startup sequence before the `while(1)` loop:
`for (j=0; j<180; j++) { <one motor cycle> }`. -/
def startupTrace : List Event :=
  (List.range 180).flatMap fun _ => pulseCycle

/-- One iteration of the `while(1)` loop, given the `send_pulse` value the
`if (send_pulse)` test observes: the events it performs and the value of
`send_pulse` afterwards (interrupts that might re-set the flag are modelled
by the caller supplying the next observed value). -/
def loopIter (send_pulse : Nat) : List Event × Nat :=
  if send_pulse ≠ 0 then
    (Event.clearFlag :: pulseCycle ++ [Event.sleepMode], 0)
  else
    ([Event.sleepMode], send_pulse)

/-- The whole main-context trace: the startup sequence followed by one loop
iteration per element of `flags`, where `flags` lists the `send_pulse`
values observed at each `if (send_pulse)` test. -/
def mainTrace (flags : List Nat) : List Event :=
  startupTrace ++ flags.flatMap fun f => (loopIter f).1

/-- Whether an event is a write of one of the six `stateMap` phase codes
(the all-off write `PORTB = 0` is not a phase application). -/
def isPhaseWrite : Event → Bool
  | Event.portWrite v => stateMap.contains v
  | _ => false

/-- Number of phase-code applications in a trace. -/
def phaseApplications (tr : List Event) : Nat := tr.countP isPhaseWrite

/-- A trace writes only legal port values: every `PORTB` write is either the
all-off code `0` or one of the `stateMap` phase codes. -/
def writesLegal (tr : List Event) : Bool :=
  tr.all fun e =>
    match e with
    | Event.portWrite v => v == 0 || stateMap.contains v
    | _ => true

/-- C1: starting from the zero accumulator, the number of `send_pulse = 1`
executions over `N` interrupt invocations is exactly
`N * MICROSECONDS_PER_INTERRUPT / MICROSECONDS_PER_PULSE` rounded down
(hence always within one unit of the exact ratio), for every tick period at
most the target interval — in particular for the deployed tick period. -/
theorem c1_pulse_count (tick n : Nat) (h : tick ≤ MICROSECONDS_PER_PULSE) :
    pulseSettings tick MICROSECONDS_PER_PULSE n = n * tick / MICROSECONDS_PER_PULSE :=
  (isr_characterization tick MICROSECONDS_PER_PULSE h (by decide) (by decide) n).2

theorem c1_pulse_count_witness :
    8000000 ≤ MICROSECONDS_PER_PULSE ∧
      pulseSettings 8000000 MICROSECONDS_PER_PULSE 61
        = 61 * 8000000 / MICROSECONDS_PER_PULSE :=
  ⟨by decide, c1_pulse_count 8000000 61 (by decide)⟩

/-- C2: after every number of interrupt invocations starting from the
zero-initialized state, the accumulator satisfies
`0 ≤ unaccounted_microseconds < MICROSECONDS_PER_PULSE`, provided the tick
period is at most the target interval. -/
theorem c2_invariant (tick n : Nat) (h : tick ≤ MICROSECONDS_PER_PULSE) :
    0 ≤ (isrRun tick MICROSECONDS_PER_PULSE n).unaccounted_microseconds ∧
      (isrRun tick MICROSECONDS_PER_PULSE n).unaccounted_microseconds
        < MICROSECONDS_PER_PULSE :=
  ⟨Nat.zero_le _,
    isr_acc_lt tick MICROSECONDS_PER_PULSE h (by decide) (by decide) n⟩

theorem c2_invariant_witness :
    8000000 ≤ MICROSECONDS_PER_PULSE ∧
      (0 ≤ (isrRun 8000000 MICROSECONDS_PER_PULSE 5).unaccounted_microseconds ∧
        (isrRun 8000000 MICROSECONDS_PER_PULSE 5).unaccounted_microseconds
          < MICROSECONDS_PER_PULSE) :=
  ⟨by decide, c2_invariant 8000000 5 (by decide)⟩

/-- C3: each interrupt invocation adds exactly the tick period to the
accumulator; below the target it returns with the flag untouched, at or
above the target it subtracts the target once (not a reset) and sets the
flag.  Scenario with tick 32 and target 100: no pulse on the first three
ticks (cumulative 32, 64, 96), the fourth tick fires (cumulative 128) and
leaves the accumulator at 28. -/
theorem c3_step_and_scenario :
    (∀ tick T : Nat, ∀ s : IsrState,
        s.unaccounted_microseconds + tick < UINT64_MOD →
        isrStep tick T s =
          if s.unaccounted_microseconds + tick < T then
            { s with unaccounted_microseconds := s.unaccounted_microseconds + tick }
          else
            ⟨s.unaccounted_microseconds + tick - T, 1⟩) ∧
      pulseSettings 32 100 3 = 0 ∧
      isrFires 32 100 (isrRun 32 100 3) = true ∧
      pulseSettings 32 100 4 = 1 ∧
      isrRun 32 100 4 = ⟨28, 1⟩ := by
  refine ⟨?_, by decide, by decide, by decide, by decide⟩
  intro tick T s h
  have hm : (s.unaccounted_microseconds + tick) % UINT64_MOD
      = s.unaccounted_microseconds + tick := Nat.mod_eq_of_lt h
  by_cases hc : s.unaccounted_microseconds + tick < T
  · simp [isrStep, hm, hc]
  · simp [isrStep, hm, hc]

theorem c3_step_and_scenario_witness :
    (⟨96, 0⟩ : IsrState).unaccounted_microseconds + 32 < UINT64_MOD ∧
      isrStep 32 100 ⟨96, 0⟩ =
        (if (⟨96, 0⟩ : IsrState).unaccounted_microseconds + 32 < 100 then
          { (⟨96, 0⟩ : IsrState) with
              unaccounted_microseconds :=
                (⟨96, 0⟩ : IsrState).unaccounted_microseconds + 32 }
        else
          ⟨(⟨96, 0⟩ : IsrState).unaccounted_microseconds + 32 - 100, 1⟩) :=
  ⟨by decide, c3_step_and_scenario.1 32 100 ⟨96, 0⟩ (by decide)⟩

/-- Unfolding of the interrupt body when the 64-bit addition does not wrap. -/
theorem isrStep_no_wrap (tick T : Nat) (s : IsrState)
    (h : s.unaccounted_microseconds + tick < UINT64_MOD) :
    isrStep tick T s =
      if s.unaccounted_microseconds + tick < T then
        { s with unaccounted_microseconds := s.unaccounted_microseconds + tick }
      else
        ⟨s.unaccounted_microseconds + tick - T, 1⟩ := by
  have hm : (s.unaccounted_microseconds + tick) % UINT64_MOD
      = s.unaccounted_microseconds + tick := Nat.mod_eq_of_lt h
  by_cases hc : s.unaccounted_microseconds + tick < T
  · simp [isrStep, hm, hc]
  · simp [isrStep, hm, hc]

/-- The pulse count is monotone in the number of invocations. -/
theorem pulseSettings_mono (tick T : Nat) {m n : Nat} (h : m ≤ n) :
    pulseSettings tick T m ≤ pulseSettings tick T n := by
  induction h with
  | refl => exact Nat.le_refl _
  | step h2 ih =>
    exact Nat.le_trans ih (Nat.le_add_right _ _)

/-- A firing invocation increments the pulse count. -/
theorem pulseSettings_succ_of_fire (tick T n : Nat)
    (h : isrFires tick T (isrRun tick T n) = true) :
    pulseSettings tick T (n + 1) = pulseSettings tick T n + 1 := by
  simp [pulseSettings, h]

/-- If the pulse count is the same after `m` and after `n` invocations,
no invocation in between fires. -/
theorem no_fire_of_count_eq (tick T m n k : Nat)
    (hcount : pulseSettings tick T m = pulseSettings tick T n)
    (h1 : m ≤ k) (h2 : k < n) :
    isrFires tick T (isrRun tick T k) = false := by
  by_contra hne
  have hk : isrFires tick T (isrRun tick T k) = true := by
    cases hx : isrFires tick T (isrRun tick T k)
    · exact absurd hx hne
    · rfl
  have e1 := pulseSettings_succ_of_fire tick T k hk
  have m1 : pulseSettings tick T m ≤ pulseSettings tick T k :=
    pulseSettings_mono tick T h1
  have m2 : pulseSettings tick T (k + 1) ≤ pulseSettings tick T n :=
    pulseSettings_mono tick T h2
  omega

/-- Right after a firing invocation, the accumulator is below the tick
period (it was below `T` before, gained `tick` and lost `T`). -/
theorem isr_acc_after_fire (tick T : Nat) (h1 : tick ≤ T) (h2 : 0 < T)
    (h3 : 2 * T ≤ UINT64_MOD) (m : Nat)
    (hf : isrFires tick T (isrRun tick T m) = true) :
    (isrRun tick T (m + 1)).unaccounted_microseconds < tick := by
  have hacc := isr_acc_lt tick T h1 h2 h3 m
  have hmod : ((isrRun tick T m).unaccounted_microseconds + tick) % UINT64_MOD
      = (isrRun tick T m).unaccounted_microseconds + tick :=
    Nat.mod_eq_of_lt (by omega)
  have hge : T ≤ (isrRun tick T m).unaccounted_microseconds + tick := by
    simpa [isrFires, hmod] using hf
  show (isrStep tick T (isrRun tick T m)).unaccounted_microseconds < tick
  rw [isrStep_no_wrap tick T _ (by omega), if_neg (by omega)]
  show (isrRun tick T m).unaccounted_microseconds + tick - T < tick
  omega

/-- Over a stretch of non-firing invocations the accumulator grows by
exactly one tick period per invocation. -/
theorem isr_acc_growth (tick T : Nat) (h1 : tick ≤ T) (h2 : 0 < T)
    (h3 : 2 * T ≤ UINT64_MOD) (m d : Nat)
    (hnof : ∀ k, m ≤ k → k < m + d → isrFires tick T (isrRun tick T k) = false) :
    (isrRun tick T (m + d)).unaccounted_microseconds
      = (isrRun tick T m).unaccounted_microseconds + d * tick := by
  induction d with
  | zero => simp
  | succ d ih =>
    have ih2 := ih fun k hk1 hk2 => hnof k hk1 (by omega)
    have hacc := isr_acc_lt tick T h1 h2 h3 (m + d)
    have hmod : ((isrRun tick T (m + d)).unaccounted_microseconds + tick) % UINT64_MOD
        = (isrRun tick T (m + d)).unaccounted_microseconds + tick :=
      Nat.mod_eq_of_lt (by omega)
    have hnf := hnof (m + d) (by omega) (by omega)
    have hlt : (isrRun tick T (m + d)).unaccounted_microseconds + tick < T := by
      simp [isrFires, hmod] at hnf
      omega
    show (isrStep tick T (isrRun tick T (m + d))).unaccounted_microseconds = _
    rw [isrStep_no_wrap tick T _ (by omega), if_pos hlt]
    show (isrRun tick T (m + d)).unaccounted_microseconds + tick = _
    rw [ih2, Nat.succ_mul]
    omega

set_option maxRecDepth 4000 in
/-- C4 counterexample: the claim as stated — for every tick period that is
positive and at most the target interval, consecutive firing invocations
are separated by at least `MICROSECONDS_PER_PULSE` worth of accumulated
ticks — is false.  With tick period 7 000 000 µs (≤ 480 000 000 µs), the
second and third firings happen at invocations 138 and 206, separated by
68 ticks carrying only 476 000 000 µs < 480 000 000 µs. -/
theorem c4_counterexample :
    ¬ (∀ tick : Nat, 0 < tick → tick ≤ MICROSECONDS_PER_PULSE →
        ∀ m n : Nat, m < n →
          isrFires tick MICROSECONDS_PER_PULSE
            (isrRun tick MICROSECONDS_PER_PULSE m) = true →
          isrFires tick MICROSECONDS_PER_PULSE
            (isrRun tick MICROSECONDS_PER_PULSE n) = true →
          (∀ k, m < k → k < n →
            isrFires tick MICROSECONDS_PER_PULSE
              (isrRun tick MICROSECONDS_PER_PULSE k) = false) →
          MICROSECONDS_PER_PULSE ≤ (n - m) * tick) := by
  intro h
  have h138 : pulseSettings 7000000 MICROSECONDS_PER_PULSE 138 = 2 := by decide
  have h205 : pulseSettings 7000000 MICROSECONDS_PER_PULSE 205 = 2 := by decide
  have hf1 : isrFires 7000000 MICROSECONDS_PER_PULSE
      (isrRun 7000000 MICROSECONDS_PER_PULSE 137) = true := by decide
  have hf2 : isrFires 7000000 MICROSECONDS_PER_PULSE
      (isrRun 7000000 MICROSECONDS_PER_PULSE 205) = true := by decide
  have hb : ∀ k, 137 < k → k < 205 →
      isrFires 7000000 MICROSECONDS_PER_PULSE
        (isrRun 7000000 MICROSECONDS_PER_PULSE k) = false := by
    intro k hk1 hk2
    exact no_fire_of_count_eq 7000000 MICROSECONDS_PER_PULSE 138 205 k
      (h138.trans h205.symm) hk1 hk2
  have hle := h 7000000 (by decide) (by decide) 137 205 (by decide) hf1 hf2 hb
  simp [MICROSECONDS_PER_PULSE] at hle

/-- C4 amended: between two consecutive firing invocations the accumulated
tick time strictly exceeds `MICROSECONDS_PER_PULSE` minus one tick period
(the bound `≥ MICROSECONDS_PER_PULSE` itself holds only when the tick
period divides the target interval, as it does in the deployed
configuration). -/
theorem c4_min_separation (tick m n : Nat) (h0 : 0 < tick)
    (h1 : tick ≤ MICROSECONDS_PER_PULSE) (hmn : m < n)
    (hf1 : isrFires tick MICROSECONDS_PER_PULSE
      (isrRun tick MICROSECONDS_PER_PULSE m) = true)
    (hf2 : isrFires tick MICROSECONDS_PER_PULSE
      (isrRun tick MICROSECONDS_PER_PULSE n) = true)
    (hno : ∀ k, m < k → k < n →
      isrFires tick MICROSECONDS_PER_PULSE
        (isrRun tick MICROSECONDS_PER_PULSE k) = false) :
    MICROSECONDS_PER_PULSE - tick < (n - m) * tick := by
  have h2 : 0 < MICROSECONDS_PER_PULSE := by decide
  have h3 : 2 * MICROSECONDS_PER_PULSE ≤ UINT64_MOD := by decide
  have hafter := isr_acc_after_fire tick MICROSECONDS_PER_PULSE h1 h2 h3 m hf1
  have hgrow0 := isr_acc_growth tick MICROSECONDS_PER_PULSE h1 h2 h3 (m + 1)
    (n - m - 1) (fun k hk1 hk2 => hno k (by omega) (by omega))
  have he : (m + 1) + (n - m - 1) = n := by omega
  rw [he] at hgrow0
  have haccn := isr_acc_lt tick MICROSECONDS_PER_PULSE h1 h2 h3 n
  have hmod : ((isrRun tick MICROSECONDS_PER_PULSE n).unaccounted_microseconds + tick)
      % UINT64_MOD
      = (isrRun tick MICROSECONDS_PER_PULSE n).unaccounted_microseconds + tick :=
    Nat.mod_eq_of_lt (by omega)
  have hTn : MICROSECONDS_PER_PULSE
      ≤ (isrRun tick MICROSECONDS_PER_PULSE n).unaccounted_microseconds + tick := by
    simpa [isrFires, hmod] using hf2
  have hx : (n - m - 1 + 1) * tick = (n - m - 1) * tick + tick := Nat.succ_mul _ _
  have hz : n - m - 1 + 1 = n - m := by omega
  rw [hz] at hx
  omega

theorem c4_min_separation_witness :
    (0 < MICROSECONDS_PER_PULSE ∧
      isrFires MICROSECONDS_PER_PULSE MICROSECONDS_PER_PULSE
        (isrRun MICROSECONDS_PER_PULSE MICROSECONDS_PER_PULSE 0) = true) ∧
      MICROSECONDS_PER_PULSE - MICROSECONDS_PER_PULSE
        < (1 - 0) * MICROSECONDS_PER_PULSE :=
  ⟨⟨by decide, by decide⟩,
    c4_min_separation MICROSECONDS_PER_PULSE 0 1 (by decide) (Nat.le_refl _)
      (by decide) (by decide) (by decide) (fun k hk1 hk2 => by omega)⟩

/-- Counting over a `flatMap` of a constant list multiplies by the length. -/
theorem countP_flatMap_const {α β : Type} (p : β → Bool) (l : List α) (c : List β) :
    ((l.flatMap fun _ => c).countP p) = l.length * c.countP p := by
  induction l with
  | nil => simp
  | cons a l ih =>
    simp only [List.flatMap_cons, List.countP_append, ih, List.length_cons, Nat.succ_mul]
    omega

/-- `takeWhile` passes over a first block that satisfies the predicate. -/
theorem takeWhile_append_of_all {α : Type} (p : α → Bool) (l1 l2 : List α)
    (h : ∀ a ∈ l1, p a = true) :
    (l1 ++ l2).takeWhile p = l1 ++ l2.takeWhile p := by
  induction l1 with
  | nil => simp
  | cons a l ih =>
    have ha : p a = true := h a (List.mem_cons_self a l)
    simp [List.takeWhile_cons, ha, ih fun x hx => h x (List.mem_cons_of_mem a hx)]

/-- C5: when the loop observes a set flag, it first clears the flag, then
writes the six phase codes in table order `0x5, 0x1, 0x3, 0x2, 0x6, 0x4`
with no repeats or skips, holds each for `PULSE_LENGTH` µs, and finally
writes the all-off code `0` (and then sleeps, with the flag left clear). -/
theorem c5_pulse_handling (s : Nat) (hs : s ≠ 0) :
    loopIter s =
      ([Event.clearFlag,
        Event.portWrite 0x5, Event.delayUs PULSE_LENGTH,
        Event.portWrite 0x1, Event.delayUs PULSE_LENGTH,
        Event.portWrite 0x3, Event.delayUs PULSE_LENGTH,
        Event.portWrite 0x2, Event.delayUs PULSE_LENGTH,
        Event.portWrite 0x6, Event.delayUs PULSE_LENGTH,
        Event.portWrite 0x4, Event.delayUs PULSE_LENGTH,
        Event.portWrite 0, Event.sleepMode], 0) := by
  unfold loopIter
  rw [if_pos hs]
  rfl

theorem c5_pulse_handling_witness :
    (1 : Nat) ≠ 0 ∧
      loopIter 1 =
        ([Event.clearFlag,
          Event.portWrite 0x5, Event.delayUs PULSE_LENGTH,
          Event.portWrite 0x1, Event.delayUs PULSE_LENGTH,
          Event.portWrite 0x3, Event.delayUs PULSE_LENGTH,
          Event.portWrite 0x2, Event.delayUs PULSE_LENGTH,
          Event.portWrite 0x6, Event.delayUs PULSE_LENGTH,
          Event.portWrite 0x4, Event.delayUs PULSE_LENGTH,
          Event.portWrite 0, Event.sleepMode], 0) :=
  ⟨by decide, c5_pulse_handling 1 (by decide)⟩

/-- C6 counterexample: the claimed ordering — drive the full cycle first and
clear the pulse request only after the cycle — is false at the concrete
flag value 1: the iteration's event trace is not the motor cycle followed
by the flag clear, because the code clears `send_pulse` before the cycle. -/
theorem c6_counterexample :
    ¬ ((loopIter 1).1 = pulseCycle ++ [Event.clearFlag, Event.sleepMode]) := by
  decide

/-- C6 amended: on a wake with the flag set, the loop clears the pulse
request first (before driving the motor), then drives one full 6-phase
cycle, then returns to sleep with the flag clear. -/
theorem c6_clear_then_cycle (s : Nat) (hs : s ≠ 0) :
    loopIter s = (Event.clearFlag :: pulseCycle ++ [Event.sleepMode], 0) := by
  unfold loopIter
  rw [if_pos hs]

theorem c6_clear_then_cycle_witness :
    (1 : Nat) ≠ 0 ∧
      loopIter 1 = (Event.clearFlag :: pulseCycle ++ [Event.sleepMode], 0) :=
  ⟨by decide, c6_clear_then_cycle 1 (by decide)⟩

/-- C7: a wake with the flag clear performs only the sleep call: no port
write, no flag change, no delay — the iteration's trace has no write and no
flag-clear event and the flag value is returned unchanged. -/
theorem c7_idle_frame :
    loopIter 0 = ([Event.sleepMode], 0) ∧
      (loopIter 0).1.countP (fun e =>
        match e with
        | Event.portWrite _ => true
        | Event.delayUs _ => true
        | Event.clearFlag => true
        | Event.sleepMode => false) = 0 := by
  decide

/-- C8: the startup sequence is a fixed trace (independent of the pulse
flag, which `main` never consults before the loop) of exactly 180 motor
cycles; it contains exactly `180 * 6 = 1080` phase-code applications, and
when the first loop iteration observes a clear flag, the whole main-context
trace up to the first `sleep_mode()` call is exactly that startup trace
with its 1080 phase applications. -/
theorem c8_startup (fs : List Nat) :
    phaseApplications startupTrace = 1080 ∧
      ((mainTrace (0 :: fs)).takeWhile fun e => decide (e ≠ Event.sleepMode))
        = startupTrace ∧
      phaseApplications
        ((mainTrace (0 :: fs)).takeWhile fun e => decide (e ≠ Event.sleepMode))
          = 1080 := by
  have hcount : phaseApplications startupTrace = 1080 := by
    unfold phaseApplications startupTrace
    rw [countP_flatMap_const]
    have h1 : pulseCycle.countP isPhaseWrite = 6 := by decide
    simp [h1]
  have hall : ∀ a ∈ startupTrace, decide (a ≠ Event.sleepMode) = true := by
    intro a ha
    rcases List.mem_flatMap.1 ha with ⟨x, _, hc⟩
    have hp : ∀ a ∈ pulseCycle, decide (a ≠ Event.sleepMode) = true := by decide
    exact hp a hc
  have htrace : ((mainTrace (0 :: fs)).takeWhile fun e => decide (e ≠ Event.sleepMode))
      = startupTrace := by
    unfold mainTrace
    rw [List.flatMap_cons]
    have hiter : (loopIter 0).1 = [Event.sleepMode] := rfl
    rw [hiter]
    rw [takeWhile_append_of_all _ startupTrace _ hall]
    simp [List.takeWhile_cons]
  exact ⟨hcount, htrace, by rw [htrace]; exact hcount⟩

/-- C9: for every reachable accumulator value (zero start, tick period at
most the target interval), the 64-bit addition
`unaccounted_microseconds + tick` stays strictly below `2^64` (so the
`uint64_t` addition never wraps), and whenever the subtraction branch is
taken the minuend is at least `MICROSECONDS_PER_PULSE` (so the `uint64_t`
subtraction never underflows). -/
theorem c9_no_wrap (tick n : Nat) (h : tick ≤ MICROSECONDS_PER_PULSE) :
    (isrRun tick MICROSECONDS_PER_PULSE n).unaccounted_microseconds + tick
        < UINT64_MOD ∧
      (isrFires tick MICROSECONDS_PER_PULSE
          (isrRun tick MICROSECONDS_PER_PULSE n) = true →
        MICROSECONDS_PER_PULSE
          ≤ (isrRun tick MICROSECONDS_PER_PULSE n).unaccounted_microseconds
            + tick) := by
  have hacc := isr_acc_lt tick MICROSECONDS_PER_PULSE h (by decide) (by decide) n
  have hM : MICROSECONDS_PER_PULSE = 480000000 := rfl
  have hU : UINT64_MOD = 18446744073709551616 := rfl
  have h1 : (isrRun tick MICROSECONDS_PER_PULSE n).unaccounted_microseconds + tick
      < UINT64_MOD := by omega
  refine ⟨h1, fun hf => ?_⟩
  simpa [isrFires, Nat.mod_eq_of_lt h1] using hf

theorem c9_no_wrap_witness :
    8000000 ≤ MICROSECONDS_PER_PULSE ∧
      (isrRun 8000000 MICROSECONDS_PER_PULSE 0).unaccounted_microseconds + 8000000
        < UINT64_MOD :=
  ⟨by decide, (c9_no_wrap 8000000 0 (by decide)).1⟩

/-- C10: every `PORTB` write the program ever performs — in the startup
sequence and in every loop iteration, for any sequence of observed flag
values — is either the all-off code `0` or one of the six phase codes
`{0x5, 0x1, 0x3, 0x2, 0x6, 0x4}`; those six codes are pairwise distinct and
every written value lies within the 3-bit `pin_mask`, so no write drives a
bit outside the three motor pins. -/
theorem c10_port_values :
    (∀ fs : List Nat, ∀ v : Nat, Event.portWrite v ∈ mainTrace fs →
        v = 0 ∨ v ∈ stateMap) ∧
      stateMap.Nodup ∧
      (∀ v ∈ stateMap, v &&& pin_mask = v) ∧
      (∀ fs : List Nat, ∀ v : Nat, Event.portWrite v ∈ mainTrace fs →
        v &&& pin_mask = v) := by
  have hcycle : ∀ v : Nat, Event.portWrite v ∈ pulseCycle → v = 0 ∨ v ∈ stateMap := by
    intro v hv
    simp [pulseCycle, stateMap] at hv
    simp [stateMap]
    omega
  have hloop : ∀ f : Nat, ∀ v : Nat, Event.portWrite v ∈ (loopIter f).1 →
      v = 0 ∨ v ∈ stateMap := by
    intro f v hv
    by_cases hf : f ≠ 0
    · rw [show (loopIter f).1 = Event.clearFlag :: pulseCycle ++ [Event.sleepMode] by
        unfold loopIter; rw [if_pos hf]] at hv
      rcases List.mem_cons.1 hv with h | h
      · exact absurd h (by simp)
      · rcases List.mem_append.1 h with h2 | h2
        · exact hcycle v h2
        · exact absurd (List.mem_singleton.1 h2) (by simp)
    · rw [show (loopIter f).1 = [Event.sleepMode] by
        unfold loopIter; rw [if_neg hf]] at hv
      exact absurd (List.mem_singleton.1 hv) (by simp)
  have hmain : ∀ fs : List Nat, ∀ v : Nat, Event.portWrite v ∈ mainTrace fs →
      v = 0 ∨ v ∈ stateMap := by
    intro fs v hv
    rcases List.mem_append.1 hv with h | h
    · rcases List.mem_flatMap.1 h with ⟨x, _, hc⟩
      exact hcycle v hc
    · rcases List.mem_flatMap.1 h with ⟨f, _, hc⟩
      exact hloop f v hc
  have hmask : ∀ v ∈ stateMap, v &&& pin_mask = v := by decide
  refine ⟨hmain, by decide, hmask, fun fs v hv => ?_⟩
  rcases hmain fs v hv with h | h
  · rw [h]; decide
  · exact hmask v h

theorem c10_port_values_witness :
    Event.portWrite 5 ∈ mainTrace [1] ∧
      (5 = 0 ∨ 5 ∈ stateMap) ∧ 5 &&& pin_mask = 5 := by
  refine ⟨?_, c10_port_values.1 [1] 5 ?_, c10_port_values.2.2.2 [1] 5 ?_⟩
  · unfold mainTrace
    exact List.mem_append_left _ (by
      rcases (by decide : Event.portWrite 5 ∈ pulseCycle) with h
      exact List.mem_flatMap.2 ⟨0, by decide, h⟩)
  · unfold mainTrace
    exact List.mem_append_left _ (List.mem_flatMap.2 ⟨0, by decide, by decide⟩)
  · unfold mainTrace
    exact List.mem_append_left _ (List.mem_flatMap.2 ⟨0, by decide, by decide⟩)
